import Mathlib

/-! Formal model of the FarCri.rs link layer and benchmark engine.

The definitions below are shallow embeddings of the Rust source:

* the SLIP framing codec of `ProxyLink::send` / `ProxyLink::recv`
  (src/bencher/proxylink.rs),
* the buffer-cursor state machine of the `ProxyLink::recv` loop,
* the stage-2 handshake responder loop of `ProxyLink::new`,
* `Function::warm_up` and `Function::sample` (src/bencher/func.rs),
* the message schema (src/bencher/protocol.rs), the per-benchmark engine
  trace of `BenchmarkGroup::bench_function_inner` (src/bencher/mod.rs) and
  the dumb front-end reply behaviour (src/proxy/dumbfront.rs).

Bytes and machine integers are modelled as `Nat`; wrapping operations that
the source performs explicitly (`wrapping_mul`, `as u64` casts) are modelled
with `% 2 ^ 64`, while plain additions (whose overflow is a panic condition,
not a defined behaviour) are modelled exactly.  Panics are modelled as
`none` or dedicated error constructors. -/

namespace Farcri

/-- End-of-frame marker byte (`SLIP_FRAME_END`, proxylink.rs:19). -/
def SLIP_FRAME_END : Nat := 0xc0

/-- Escape byte (`SLIP_FRAME_ESC`, proxylink.rs:20). -/
def SLIP_FRAME_ESC : Nat := 0xdb

/-- Substitute for an escaped end-of-frame byte (`SLIP_FRAME_ESC_END`). -/
def SLIP_FRAME_ESC_END : Nat := 0xdc

/-- Substitute for an escaped escape byte (`SLIP_FRAME_ESC_ESC`). -/
def SLIP_FRAME_ESC_ESC : Nat := 0xdd

/-- The escape code `ProxyLink::send` computes for one payload byte
(the `match b` at proxylink.rs:227-231). -/
def sendEscapeCode (b : Nat) : Nat :=
  if b = SLIP_FRAME_END then SLIP_FRAME_ESC_END
  else if b = SLIP_FRAME_ESC then SLIP_FRAME_ESC_ESC
  else b

/-- Byte-level effect of the in-place escaping loop of `ProxyLink::send`
(proxylink.rs:225-252): a byte whose escape code differs from itself is
emitted as the escape byte followed by the code, any other byte is emitted
as-is.  The source walks the buffer backwards writing at the tail of a
shrinking window; the emitted byte sequence is modelled directly.  (The
`window.len() < 2` guard of the source is unreachable because the window is
sized to hold every escape pair.) -/
def sendEscape : List Nat → List Nat
  | [] => []
  | b :: rest =>
    if sendEscapeCode b = b then b :: sendEscape rest
    else SLIP_FRAME_ESC :: sendEscapeCode b :: sendEscape rest

/-- The full SLIP frame written by `ProxyLink::send`: the escaped payload
with one end-of-frame byte appended (proxylink.rs:216-222). -/
def sendFrame (p : List Nat) : List Nat := sendEscape p ++ [SLIP_FRAME_END]

/-- The in-place escape-collapsing scan of `ProxyLink::recv`
(proxylink.rs:128-148).  An escape byte with a following byte inside the
window is collapsed with it when the second byte is one of the two
recognized substitutes and is a fatal decode error (`none`, the
`panic!("invalid SLIP escape")` at proxylink.rs:139) otherwise; an escape
byte in the final position — where the source's `read_ptr + 1 <
window.len()` test fails — is copied through literally. -/
def slipUnescape : List Nat → Option (List Nat)
  | [] => some []
  | b1 :: rest =>
    if b1 = SLIP_FRAME_ESC then
      match rest with
      | [] => some [b1]
      | b2 :: rest2 =>
        if b2 = SLIP_FRAME_ESC_END then (slipUnescape rest2).map (fun w => SLIP_FRAME_END :: w)
        else if b2 = SLIP_FRAME_ESC_ESC then
          (slipUnescape rest2).map (fun w => SLIP_FRAME_ESC :: w)
        else none
    else (slipUnescape rest).map (fun w => b1 :: w)

/-- Splits a byte stream at the first end-of-frame byte, modelling the
`iter().position(|&b| b == SLIP_FRAME_END)` delimiter scan of
`ProxyLink::recv` (proxylink.rs:117-123): the frame contents before the
delimiter and the remaining stream after it. -/
def splitAtEnd : List Nat → Option (List Nat × List Nat)
  | [] => none
  | b :: rest =>
    if b = SLIP_FRAME_END then some ([], rest)
    else (splitAtEnd rest).map (fun pr => (b :: pr.1, pr.2))

/-- Result of decoding one message from a byte stream with
`ProxyLink::recv`. -/
inductive RecvResult where
  | msg (payload : List Nat) (rest : List Nat)
  | needMore
  | escErr
deriving DecidableEq

/-- Stream-level model of the `ProxyLink::recv` loop (proxylink.rs:114-182):
an empty frame (a delimiter with no bytes before it) makes the loop continue
with the next frame, which at stream level is dropping leading delimiter
bytes; the first nonempty frame is un-escaped and returned together with the
unconsumed remainder; when no delimiter is available the loop would block
reading more input (`needMore`). -/
def recvModel (input : List Nat) : RecvResult :=
  match splitAtEnd (input.dropWhile (fun b => b = SLIP_FRAME_END)) with
  | none => .needMore
  | some (frame, rest) =>
    match slipUnescape frame with
    | some p => .msg p rest
    | none => .escErr

theorem slipUnescape_cons_ne (b1 : Nat) (rest : List Nat) (h : b1 ≠ SLIP_FRAME_ESC) :
    slipUnescape (b1 :: rest) = (slipUnescape rest).map (fun w => b1 :: w) := by
  rw [slipUnescape.eq_def]
  simp [h]

theorem slipUnescape_esc_nil : slipUnescape [SLIP_FRAME_ESC] = some [SLIP_FRAME_ESC] := rfl

theorem slipUnescape_esc_cons (b2 : Nat) (rest2 : List Nat) :
    slipUnescape (SLIP_FRAME_ESC :: b2 :: rest2) =
      if b2 = SLIP_FRAME_ESC_END then (slipUnescape rest2).map (fun w => SLIP_FRAME_END :: w)
      else if b2 = SLIP_FRAME_ESC_ESC then (slipUnescape rest2).map (fun w => SLIP_FRAME_ESC :: w)
      else none := by
  rw [slipUnescape.eq_def]
  simp

theorem mem_sendEscape_ne_end {p : List Nat} : ∀ b ∈ sendEscape p, b ≠ SLIP_FRAME_END := by
  induction p with
  | nil => intro b hb; simp [sendEscape] at hb
  | cons x rest ih =>
    intro b hb
    by_cases hx : sendEscapeCode x = x
    · rw [sendEscape, if_pos hx] at hb
      rcases List.mem_cons.mp hb with h | h
      · subst h
        intro hEnd
        rw [hEnd] at hx
        simp [sendEscapeCode, SLIP_FRAME_END, SLIP_FRAME_ESC, SLIP_FRAME_ESC_END] at hx
      · exact ih b h
    · rw [sendEscape, if_neg hx] at hb
      rcases List.mem_cons.mp hb with h | h
      · subst h; simp [SLIP_FRAME_ESC, SLIP_FRAME_END]
      · rcases List.mem_cons.mp h with h2 | h2
        · subst h2
          by_cases hxe : x = SLIP_FRAME_END
          · subst hxe; decide
          · by_cases hxs : x = SLIP_FRAME_ESC
            · subst hxs; decide
            · exact absurd (by simp [sendEscapeCode, hxe, hxs]) hx
        · exact ih b h2

theorem sendEscape_ne_nil {b : Nat} {rest : List Nat} : sendEscape (b :: rest) ≠ [] := by
  by_cases h : sendEscapeCode b = b <;> simp [sendEscape, h]

theorem slipUnescape_sendEscape (p : List Nat) : slipUnescape (sendEscape p) = some p := by
  induction p with
  | nil => rfl
  | cons x rest ih =>
    by_cases hxe : x = SLIP_FRAME_END
    · subst hxe
      rw [sendEscape, if_neg (by decide), show sendEscapeCode SLIP_FRAME_END = SLIP_FRAME_ESC_END
        from rfl, slipUnescape_esc_cons, if_pos rfl, ih]
      rfl
    · by_cases hxs : x = SLIP_FRAME_ESC
      · subst hxs
        rw [sendEscape, if_neg (by decide), show sendEscapeCode SLIP_FRAME_ESC = SLIP_FRAME_ESC_ESC
          from rfl, slipUnescape_esc_cons, if_neg (by decide), if_pos rfl, ih]
        rfl
      · have hcode : sendEscapeCode x = x := by simp [sendEscapeCode, hxe, hxs]
        rw [sendEscape, if_pos hcode, slipUnescape_cons_ne x _ hxs, ih]
        rfl

theorem splitAtEnd_append (xs r : List Nat) (h : ∀ b ∈ xs, b ≠ SLIP_FRAME_END) :
    splitAtEnd (xs ++ SLIP_FRAME_END :: r) = some (xs, r) := by
  induction xs with
  | nil => simp [splitAtEnd]
  | cons x rest ih =>
    have hx : x ≠ SLIP_FRAME_END := h x (List.mem_cons_self x rest)
    have ih2 := ih (fun b hb => h b (List.mem_cons_of_mem _ hb))
    rw [List.cons_append, splitAtEnd, if_neg hx, ih2]
    rfl

/-- C1 (amended): for every nonempty payload — in particular payloads that
contain the end-of-frame byte 0xC0 or the escape byte 0xDB — decoding the
frame produced by the target-side SLIP encoder with the target-side decoder
yields exactly the payload, with the whole frame consumed. -/
theorem recvModel_of_frame (e : Nat) (es r : List Nat)
    (hne : ∀ b ∈ e :: es, b ≠ SLIP_FRAME_END) :
    recvModel ((e :: es) ++ SLIP_FRAME_END :: r) =
      match slipUnescape (e :: es) with
      | some p => RecvResult.msg p r
      | none => RecvResult.escErr := by
  have he : e ≠ SLIP_FRAME_END := hne e (List.mem_cons_self e es)
  have hsplit := splitAtEnd_append (e :: es) r hne
  unfold recvModel
  rw [List.cons_append, List.dropWhile_cons]
  simp only [decide_eq_true_eq, if_neg he]
  rw [← List.cons_append, hsplit]

theorem c1_slip_roundtrip (p : List Nat) (hp : p ≠ []) :
    recvModel (sendFrame p) = RecvResult.msg p [] := by
  obtain ⟨b, rest, rfl⟩ : ∃ b rest, p = b :: rest := by
    cases p with
    | nil => exact absurd rfl hp
    | cons b rest => exact ⟨b, rest, rfl⟩
  rcases hse : sendEscape (b :: rest) with _ | ⟨e, es⟩
  · exact absurd hse sendEscape_ne_nil
  · have hne : ∀ x ∈ e :: es, x ≠ SLIP_FRAME_END := by
      intro x hx
      apply mem_sendEscape_ne_end (p := b :: rest)
      rw [hse]; exact hx
    have hframe := recvModel_of_frame e es [] hne
    unfold sendFrame
    rw [hse, show ([SLIP_FRAME_END] : List Nat) = SLIP_FRAME_END :: [] from rfl, hframe,
      ← hse, slipUnescape_sendEscape]

/-- C1 counterexample: the empty payload's frame is a bare delimiter, which
the receive loop skips as a keep-alive frame and never returns — decoding
the encoded empty payload does not yield the empty payload. -/
theorem c1_slip_roundtrip_empty_counterexample :
    recvModel (sendFrame []) = RecvResult.needMore ∧
      RecvResult.needMore ≠ RecvResult.msg [] [] := by
  exact ⟨rfl, by decide⟩

theorem c1_slip_roundtrip_witness :
    recvModel (sendFrame [0xc0, 0xdb, 0x42]) = RecvResult.msg [0xc0, 0xdb, 0x42] [] :=
  c1_slip_roundtrip [0xc0, 0xdb, 0x42] (by decide)

theorem slipUnescape_invalid_aux (b : Nat) (v : List Nat)
    (hb1 : b ≠ SLIP_FRAME_ESC_END) (hb2 : b ≠ SLIP_FRAME_ESC_ESC) :
    ∀ n (u : List Nat), u.length ≤ n →
      slipUnescape (u ++ SLIP_FRAME_ESC :: b :: v) = none := by
  intro n
  induction n with
  | zero =>
    intro u hu
    have hnil : u = [] := List.length_eq_zero.mp (Nat.le_zero.mp hu)
    subst hnil
    rw [List.nil_append, slipUnescape_esc_cons, if_neg hb1, if_neg hb2]
  | succ n ih =>
    intro u hu
    match u with
    | [] => rw [List.nil_append, slipUnescape_esc_cons, if_neg hb1, if_neg hb2]
    | x :: u2 =>
      by_cases hx : x = SLIP_FRAME_ESC
      · subst hx
        match u2 with
        | [] =>
          rw [List.cons_append, List.nil_append, slipUnescape_esc_cons,
            if_neg (by decide), if_neg (by decide)]
        | y :: u3 =>
          have hlen : u3.length ≤ n := by
            simp only [List.length_cons] at hu; omega
          rw [List.cons_append, List.cons_append, slipUnescape_esc_cons]
          by_cases hy1 : y = SLIP_FRAME_ESC_END
          · rw [if_pos hy1, ih u3 hlen]; rfl
          · by_cases hy2 : y = SLIP_FRAME_ESC_ESC
            · rw [if_neg hy1, if_pos hy2, ih u3 hlen]; rfl
            · rw [if_neg hy1, if_neg hy2]
      · have hlen : u2.length ≤ n := by
          simp only [List.length_cons] at hu; omega
        rw [List.cons_append, slipUnescape_cons_ne x _ hx, ih u2 hlen]
        rfl

/-- C7 (amended): an escape byte followed inside the frame by any byte other
than the two recognized substitutes 0xDC and 0xDD makes the whole
un-escaping scan fail — the `panic!("invalid SLIP escape")` at
proxylink.rs:139 — wherever the escape byte occurs within the frame.  (An
escape byte that is the frame's final byte, directly before the delimiter,
is not an error: see the counterexample.) -/
theorem c7_invalid_escape (u : List Nat) (b : Nat) (v : List Nat)
    (hb1 : b ≠ SLIP_FRAME_ESC_END) (hb2 : b ≠ SLIP_FRAME_ESC_ESC) :
    slipUnescape (u ++ SLIP_FRAME_ESC :: b :: v) = none :=
  slipUnescape_invalid_aux b v hb1 hb2 u.length u le_rfl

/-- C7 counterexample: a frame whose final byte is the escape byte — so that
on the wire the escape byte is followed directly by the frame delimiter, a
byte that is not one of the recognized substitutes — is not a decode error:
the scan copies the trailing escape byte through literally. -/
theorem c7_trailing_escape_counterexample :
    recvModel [0xdb, 0xc0] = RecvResult.msg [0xdb] [] ∧
      RecvResult.msg [0xdb] [] ≠ RecvResult.escErr := by
  exact ⟨rfl, by decide⟩

theorem c7_invalid_escape_witness :
    slipUnescape ([0x41] ++ SLIP_FRAME_ESC :: 0x00 :: [0x42]) = none :=
  c7_invalid_escape [0x41] 0x00 [0x42] (by decide) (by decide)

/-- `HANDSHAKE_MAGIC` (protocol.rs:7): the byte 0x01 followed by the 13-byte
ASCII tag "fluttershyyay". -/
def HANDSHAKE_MAGIC : List Nat :=
  [0x01, 102, 108, 117, 116, 116, 101, 114, 115, 104, 121, 121, 97, 121]

/-- `HANDSHAKE_END_MAGIC` (protocol.rs:10): the byte 0x02 followed by the
9-byte ASCII tag "applejack". -/
def HANDSHAKE_END_MAGIC : List Nat := [0x02, 97, 112, 112, 108, 101, 106, 97, 99, 107]

/-- `HANDSHAKE_NONCE_LEN` (protocol.rs:8). -/
def HANDSHAKE_NONCE_LEN : Nat := 16

/-- Reads input bytes one at a time comparing them against `pat`, modelling
the byte-comparison loops of `ProxyLink::new` (proxylink.rs:61-67 and 85-91):
`none` when the input runs out, `some (false, rest)` at the first mismatch
(the mismatching byte has been consumed), `some (true, rest)` after the whole
pattern matched. -/
def consumeSeq : List Nat → List Nat → Option (Bool × List Nat)
  | [], input => some (true, input)
  | _ :: _, [] => none
  | p :: ps, b :: rest => if b = p then consumeSeq ps rest else some (false, rest)

/-- Reads exactly `n` bytes (the nonce read of proxylink.rs:72-74). -/
def takeExactly : Nat → List Nat → Option (List Nat × List Nat)
  | 0, input => some ([], input)
  | _ + 1, [] => none
  | n + 1, b :: rest => (takeExactly n rest).map (fun pr => (b :: pr.1, pr.2))

/-- Outcome of the handshake responder: the echoes it writes (in order) and
the unconsumed stream on transitioning to framed operation, a fatal protocol
panic, or exhaustion of the modelled input. -/
inductive HsResult where
  | ok (echoes : List (List Nat)) (rest : List Nat)
  | panic
  | outOfInput
deriving DecidableEq

/-- Prepends one echo to a successful outcome. -/
def HsResult.addEcho (e : List Nat) : HsResult → HsResult
  | .ok es r => .ok (e :: es) r
  | .panic => .panic
  | .outOfInput => .outOfInput

/-- Stage 2 of the target-side handshake responder: the `'outer` loop of
`ProxyLink::new` (proxylink.rs:47-97) once `got_handshape` is true, i.e.
after the responder's first sync echo. Each iteration branches on the first
byte read: the sync marker's first byte 0x01 leads to re-reading the marker
tail and a fresh nonce and echoing the full sequence once more (a tail
mismatch silently restarts the loop); the end marker's first byte 0x02 leads
to strictly reading the end-marker tail (any mismatch is the
`panic!("bad handshake end packet")` of proxylink.rs:89) and replying with
the end marker, completing the handshake; any other byte is the fatal panic
of proxylink.rs:54. Modelled with explicit fuel; every iteration consumes at
least one byte, so any fuel above the input length is enough
(`hsStage2F_stable`). -/
def hsStage2F : Nat → List Nat → HsResult
  | 0, _ => .outOfInput
  | _ + 1, [] => .outOfInput
  | fuel + 1, b :: rest =>
    if b = 0x01 then
      match consumeSeq (HANDSHAKE_MAGIC.drop 1) rest with
      | none => .outOfInput
      | some (false, rest2) => hsStage2F fuel rest2
      | some (true, rest2) =>
        match takeExactly HANDSHAKE_NONCE_LEN rest2 with
        | none => .outOfInput
        | some (nonce, rest3) => (hsStage2F fuel rest3).addEcho (HANDSHAKE_MAGIC ++ nonce)
    else if b = 0x02 then
      match consumeSeq (HANDSHAKE_END_MAGIC.drop 1) rest with
      | none => .outOfInput
      | some (false, _) => .panic
      | some (true, rest2) => .ok [HANDSHAKE_END_MAGIC] rest2
    else .panic

/-- Stage 2 of the handshake responder over a byte stream. -/
def hsStage2 (input : List Nat) : HsResult := hsStage2F (input.length + 1) input

theorem consumeSeq_length :
    ∀ (pat input : List Nat) (flag : Bool) (rest : List Nat),
      consumeSeq pat input = some (flag, rest) → rest.length ≤ input.length := by
  intro pat
  induction pat with
  | nil =>
    intro input flag rest h
    simp only [consumeSeq, Option.some.injEq, Prod.mk.injEq] at h
    rw [← h.2]
  | cons p ps ih =>
    intro input flag rest h
    cases input with
    | nil => simp [consumeSeq] at h
    | cons b bs =>
      by_cases hb : b = p
      · rw [consumeSeq, if_pos hb] at h
        exact Nat.le_succ_of_le (ih bs flag rest h)
      · rw [consumeSeq, if_neg hb] at h
        simp only [Option.some.injEq, Prod.mk.injEq] at h
        rw [← h.2]
        exact Nat.le_succ _

theorem consumeSeq_self (pat r : List Nat) : consumeSeq pat (pat ++ r) = some (true, r) := by
  induction pat with
  | nil => rfl
  | cons p ps ih => simp [consumeSeq, ih]

theorem takeExactly_length :
    ∀ (n : Nat) (input xs rest : List Nat),
      takeExactly n input = some (xs, rest) → rest.length ≤ input.length := by
  intro n
  induction n with
  | zero =>
    intro input xs rest h
    simp only [takeExactly, Option.some.injEq, Prod.mk.injEq] at h
    rw [← h.2]
  | succ n ih =>
    intro input xs rest h
    cases input with
    | nil => simp [takeExactly] at h
    | cons b bs =>
      simp only [takeExactly, Option.map_eq_some'] at h
      obtain ⟨⟨ys, r2⟩, hy, heq⟩ := h
      cases heq
      exact Nat.le_succ_of_le (ih bs ys r2 hy)

theorem takeExactly_append (xs r : List Nat) :
    takeExactly xs.length (xs ++ r) = some (xs, r) := by
  induction xs with
  | nil => rfl
  | cons x t ih => simp [takeExactly, ih]

theorem hsStage2F_stable (n : Nat) :
    ∀ (input : List Nat) (f g : Nat),
      input.length < f → input.length < g → input.length ≤ n →
      hsStage2F f input = hsStage2F g input := by
  induction n with
  | zero =>
    intro input f g hf hg hn
    have hnil : input = [] := List.length_eq_zero.mp (Nat.le_zero.mp hn)
    subst hnil
    cases f with
    | zero => omega
    | succ f2 =>
      cases g with
      | zero => omega
      | succ g2 => rfl
  | succ n ih =>
    intro input f g hf hg hn
    cases input with
    | nil =>
      cases f with
      | zero => omega
      | succ f2 =>
        cases g with
        | zero => omega
        | succ g2 => rfl
    | cons b rest =>
      cases f with
      | zero => omega
      | succ f2 =>
        cases g with
        | zero => omega
        | succ g2 =>
          simp only [List.length_cons] at hf hg hn
          by_cases hb1 : b = 0x01
          · rcases hcs : consumeSeq (HANDSHAKE_MAGIC.drop 1) rest with _ | ⟨flag, rest2⟩
            · simp only [hsStage2F, if_pos hb1, hcs]
            · have hlen2 := consumeSeq_length _ _ _ _ hcs
              cases flag with
              | false =>
                simp only [hsStage2F, if_pos hb1, hcs]
                exact ih rest2 f2 g2 (by omega) (by omega) (by omega)
              | true =>
                rcases hte : takeExactly HANDSHAKE_NONCE_LEN rest2 with _ | ⟨nonce, rest3⟩
                · simp only [hsStage2F, if_pos hb1, hcs, hte]
                · have hlen3 := takeExactly_length _ _ _ _ hte
                  simp only [hsStage2F, if_pos hb1, hcs, hte]
                  exact congrArg (HsResult.addEcho (HANDSHAKE_MAGIC ++ nonce))
                    (ih rest3 f2 g2 (by omega) (by omega) (by omega))
          · by_cases hb2 : b = 0x02
            · simp only [hsStage2F, if_neg hb1, if_pos hb2]
            · simp only [hsStage2F, if_neg hb1, if_neg hb2]

/-- C5 (amended): in handshake stage 2 the target-side responder
distinguishes by first byte: a complete stale sync-marker-plus-nonce
sequence is consumed and echoed once more — the reply at proxylink.rs:79
also runs for repeats seen after the first echo, so the stale sequence is
not silently discarded — and the loop continues; the end marker is consumed
and answered with exactly one end-marker reply, and the responder
transitions to framed operation; any first byte matching neither marker's
first byte is a fatal protocol panic. -/
theorem c5_stage2_behavior :
    (∀ (nonce rest : List Nat), nonce.length = HANDSHAKE_NONCE_LEN →
      hsStage2 (HANDSHAKE_MAGIC ++ (nonce ++ rest)) =
        (hsStage2 rest).addEcho (HANDSHAKE_MAGIC ++ nonce)) ∧
    (∀ rest : List Nat,
      hsStage2 (HANDSHAKE_END_MAGIC ++ rest) = HsResult.ok [HANDSHAKE_END_MAGIC] rest) ∧
    (∀ (b : Nat) (rest : List Nat), b ≠ 0x01 → b ≠ 0x02 →
      hsStage2 (b :: rest) = HsResult.panic) := by
  refine ⟨?_, ?_, ?_⟩
  · intro nonce rest hlen
    have h2 : takeExactly HANDSHAKE_NONCE_LEN (nonce ++ rest) = some (nonce, rest) := by
      rw [← hlen]
      exact takeExactly_append nonce rest
    have hshape : HANDSHAKE_MAGIC ++ (nonce ++ rest) =
        0x01 :: ((HANDSHAKE_MAGIC.drop 1) ++ (nonce ++ rest)) := rfl
    have hlentot : (HANDSHAKE_MAGIC ++ (nonce ++ rest)).length = rest.length + 30 := by
      simp [HANDSHAKE_MAGIC, hlen, HANDSHAKE_NONCE_LEN]
      omega
    unfold hsStage2
    rw [hlentot, hshape]
    simp only [hsStage2F, if_pos (rfl : (0x01 : Nat) = 0x01), consumeSeq_self, h2]
    exact congrArg (HsResult.addEcho (HANDSHAKE_MAGIC ++ nonce))
      (hsStage2F_stable rest.length rest (rest.length + 30) (rest.length + 1)
        (by omega) (by omega) le_rfl)
  · intro rest
    have hshape : HANDSHAKE_END_MAGIC ++ rest =
        0x02 :: ((HANDSHAKE_END_MAGIC.drop 1) ++ rest) := rfl
    have hlentot : (HANDSHAKE_END_MAGIC ++ rest).length = rest.length + 10 := by
      simp [HANDSHAKE_END_MAGIC]
    have hne1 : ¬(0x02 : Nat) = 0x01 := by decide
    unfold hsStage2
    rw [hlentot, hshape]
    simp only [hsStage2F, if_neg hne1, eq_self_iff_true, if_true, consumeSeq_self]
  · intro b rest hb1 hb2
    unfold hsStage2
    simp only [List.length_cons, hsStage2F, if_neg hb1, if_neg hb2]

/-- C5 counterexample: a stale sync-marker-plus-nonce sequence arriving in
stage 2 is echoed again by the responder before the end-marker exchange —
the echo list contains the stale sequence, contradicting the claim that it
is consumed and discarded without being echoed again. -/
theorem c5_stage2_counterexample :
    hsStage2 (HANDSHAKE_MAGIC ++ (List.replicate 16 0x10 ++ HANDSHAKE_END_MAGIC)) =
      HsResult.ok [HANDSHAKE_MAGIC ++ List.replicate 16 0x10, HANDSHAKE_END_MAGIC] [] ∧
    (HANDSHAKE_MAGIC ++ List.replicate 16 0x10) ∈
      [HANDSHAKE_MAGIC ++ List.replicate 16 0x10, HANDSHAKE_END_MAGIC] := by
  exact ⟨by decide, by decide⟩

theorem c5_stage2_behavior_witness : hsStage2 [0x42, 0x43] = HsResult.panic :=
  c5_stage2_behavior.2.2 0x42 [0x43] (by decide) (by decide)

/-- The warm-up loop of `Function::warm_up` (func.rs:55-69) with explicit
fuel.  `time iters` is the elapsed wall time `Bencher::iter`
(bencher.rs:64-78) captures for one call of the routine at the given
iteration count.  Each loop iteration adds the iteration count and elapsed
time to the accumulators, returns them as soon as the accumulated elapsed
time exceeds `howLong`, and otherwise doubles the per-call count with
`wrapping_mul(2)`, modelled as multiplication modulo 2^64.  The first
component lists the per-call iteration counts in order; the second is the
returned pair (accumulated elapsed time, accumulated iteration count), or
`none` if the fuel ran out before termination. -/
def warmUpRun (time : Nat → Nat) (howLong : Nat) :
    Nat → Nat → Nat → Nat → List Nat × Option (Nat × Nat)
  | 0, _, _, _ => ([], none)
  | fuel + 1, iters, total, elapsed =>
    let e := time iters
    let total2 := total + iters
    let elapsed2 := elapsed + e
    if howLong < elapsed2 then ([iters], some (elapsed2, total2))
    else
      let r := warmUpRun time howLong fuel (iters * 2 % 2 ^ 64) total2 elapsed2
      (iters :: r.1, r.2)

/-- `Function::warm_up` (func.rs:40-70): the loop starts at one iteration
with zeroed accumulators. -/
def Function.warm_up (time : Nat → Nat) (howLong fuel : Nat) :
    List Nat × Option (Nat × Nat) :=
  warmUpRun time howLong fuel 1 0 0

theorem warmUpRun_term (time : Nat → Nat) (howLong : Nat) (hpos : ∀ n, 1 ≤ time n) :
    ∀ (fuel iters total elapsed : Nat), elapsed ≤ howLong → howLong < elapsed + fuel →
      ∃ pr, (warmUpRun time howLong fuel iters total elapsed).2 = some pr := by
  intro fuel
  induction fuel with
  | zero => intro iters total elapsed h1 h2; omega
  | succ fuel ih =>
    intro iters total elapsed h1 h2
    rw [warmUpRun]
    by_cases hstop : howLong < elapsed + time iters
    · simp only [if_pos hstop]
      exact ⟨_, rfl⟩
    · simp only [if_neg hstop]
      have := hpos iters
      exact ih (iters * 2 % 2 ^ 64) (total + iters) (elapsed + time iters)
        (by omega) (by omega)

theorem warmUpRun_some (time : Nat → Nat) (howLong : Nat) :
    ∀ (fuel iters total elapsed : Nat) (e t : Nat),
      (warmUpRun time howLong fuel iters total elapsed).2 = some (e, t) →
      howLong < e ∧
        t = total + (warmUpRun time howLong fuel iters total elapsed).1.sum ∧
        e = elapsed + ((warmUpRun time howLong fuel iters total elapsed).1.map time).sum := by
  intro fuel
  induction fuel with
  | zero => intro iters total elapsed e t h; simp [warmUpRun] at h
  | succ fuel ih =>
    intro iters total elapsed e t h
    rw [warmUpRun] at h ⊢
    by_cases hstop : howLong < elapsed + time iters
    · simp only [if_pos hstop] at h ⊢
      simp only [Option.some.injEq, Prod.mk.injEq] at h
      obtain ⟨he, ht⟩ := h
      subst he; subst ht
      refine ⟨hstop, by simp, by simp⟩
    · simp only [if_neg hstop] at h ⊢
      obtain ⟨hgoal, ht, he⟩ := ih (iters * 2 % 2 ^ 64) (total + iters) (elapsed + time iters) e t h
      refine ⟨hgoal, ?_, ?_⟩
      · simp only [List.sum_cons]
        omega
      · simp only [List.map_cons, List.sum_cons]
        omega

theorem warmUpRun_trace (time : Nat → Nat) (howLong : Nat) :
    ∀ (fuel iters total elapsed : Nat), iters < 2 ^ 64 →
      ∀ k, k < (warmUpRun time howLong fuel iters total elapsed).1.length →
        (warmUpRun time howLong fuel iters total elapsed).1.get? k =
          some (iters * 2 ^ k % 2 ^ 64) := by
  intro fuel
  induction fuel with
  | zero => intro iters total elapsed hi k hk; simp [warmUpRun] at hk
  | succ fuel ih =>
    intro iters total elapsed hi k hk
    rw [warmUpRun] at hk ⊢
    by_cases hstop : howLong < elapsed + time iters
    · simp only [if_pos hstop] at hk ⊢
      simp only [List.length_singleton] at hk
      interval_cases k
      simp only [List.get?_cons_zero, Option.some.injEq, pow_zero, Nat.mul_one]
      omega
    · simp only [if_neg hstop] at hk ⊢
      cases k with
      | zero =>
        simp only [List.get?_cons_zero, Option.some.injEq, pow_zero, Nat.mul_one]
        omega
      | succ k =>
        simp only [List.length_cons, Nat.add_lt_add_iff_right] at hk
        have hrec := ih (iters * 2 % 2 ^ 64) (total + iters) (elapsed + time iters)
          (Nat.mod_lt _ (by norm_num)) k hk
        simp only [List.get?_cons_succ, hrec]
        congr 1
        rw [Nat.mod_mul_mod]
        ring_nf

theorem warmUpRun_prefix (time : Nat → Nat) (howLong : Nat) :
    ∀ (fuel iters total elapsed : Nat) (j : Nat),
      j + 1 < (warmUpRun time howLong fuel iters total elapsed).1.length →
      elapsed + (((warmUpRun time howLong fuel iters total elapsed).1.take (j + 1)).map
        time).sum ≤ howLong := by
  intro fuel
  induction fuel with
  | zero => intro iters total elapsed j hj; simp [warmUpRun] at hj
  | succ fuel ih =>
    intro iters total elapsed j hj
    rw [warmUpRun] at hj ⊢
    by_cases hstop : howLong < elapsed + time iters
    · simp only [if_pos hstop] at hj
      simp only [List.length_singleton] at hj
      omega
    · simp only [if_neg hstop] at hj ⊢
      cases j with
      | zero =>
        simp only [List.take_succ_cons, List.take_zero, List.map_cons, List.map_nil,
          List.sum_cons, List.sum_nil]
        omega
      | succ j =>
        simp only [List.length_cons, Nat.add_lt_add_iff_right] at hj
        have hrec := ih (iters * 2 % 2 ^ 64) (total + iters) (elapsed + time iters) j hj
        simp only [List.take_succ_cons, List.map_cons, List.sum_cons]
        omega

/-- C6 (amended): for every routine with positive per-call elapsed time and
enough fuel, the warm-up loop terminates with accumulated elapsed time
strictly above the goal (hence at least the goal), the returned iteration
count is the accumulated total of the per-call counts and the returned
elapsed time the accumulated total of the per-call elapsed times, no proper
prefix of the calls already exceeded the goal (the loop stops as soon as the
accumulated elapsed time exceeds it), the per-call count starts at 1, and
call `k` runs `2 ^ k % 2 ^ 64` iterations: the count doubles modulo 2^64
(`wrapping_mul`), so it exactly doubles only until it wraps to 0 at the 64th
doubling. -/
theorem c6_warm_up (time : Nat → Nat) (howLong fuel : Nat)
    (hpos : ∀ n, 1 ≤ time n) (hfuel : howLong < fuel) :
    (∃ e t, (Function.warm_up time howLong fuel).2 = some (e, t) ∧
      howLong < e ∧ t = (Function.warm_up time howLong fuel).1.sum ∧
      e = ((Function.warm_up time howLong fuel).1.map time).sum) ∧
    (Function.warm_up time howLong fuel).1.get? 0 = some 1 ∧
    (∀ k, k < (Function.warm_up time howLong fuel).1.length →
      (Function.warm_up time howLong fuel).1.get? k = some (2 ^ k % 2 ^ 64)) ∧
    (∀ j, j + 1 < (Function.warm_up time howLong fuel).1.length →
      (((Function.warm_up time howLong fuel).1.take (j + 1)).map time).sum ≤ howLong) := by
  obtain ⟨⟨e, t⟩, hsome⟩ :=
    warmUpRun_term time howLong hpos fuel 1 0 0 (Nat.zero_le _) (by omega)
  have htrace := warmUpRun_trace time howLong fuel 1 0 0 (by norm_num)
  have hlen : 0 < (Function.warm_up time howLong fuel).1.length := by
    obtain ⟨hgoal, -, he⟩ := warmUpRun_some time howLong fuel 1 0 0 e t hsome
    rcases hname : (warmUpRun time howLong fuel 1 0 0).1 with _ | ⟨a, l⟩
    · rw [hname] at he
      simp at he
      omega
    · have hname2 : (Function.warm_up time howLong fuel).1 = a :: l := hname
      simp [hname2]
  refine ⟨⟨e, t, hsome, ?_, ?_, ?_⟩, ?_, ?_, ?_⟩
  · exact (warmUpRun_some time howLong fuel 1 0 0 e t hsome).1
  · have := (warmUpRun_some time howLong fuel 1 0 0 e t hsome).2.1
    simpa [Function.warm_up] using this
  · have := (warmUpRun_some time howLong fuel 1 0 0 e t hsome).2.2
    simpa [Function.warm_up] using this
  · have := htrace 0 hlen
    simpa [Function.warm_up] using this
  · intro k hk
    have := htrace k hk
    simpa [Function.warm_up] using this
  · intro j hj
    have := warmUpRun_prefix time howLong fuel 1 0 0 j hj
    simpa [Function.warm_up] using this

/-- C6 counterexample: a routine whose per-call elapsed time is constantly 1
(positive and bounded) with warm-up goal 70 makes the loop run 71 calls; the
65th call runs `2 ^ 64 % 2 ^ 64 = 0` iterations — the `wrapping_mul`-wrapped
value — instead of double the previous call's `2 ^ 63`, so the per-call
iteration count does not exactly double after every call. -/
theorem c6_warm_up_counterexample :
    (Function.warm_up (fun _ => 1) 70 100).1.get? 63 = some (2 ^ 63) ∧
    (Function.warm_up (fun _ => 1) 70 100).1.get? 64 = some 0 ∧
    (0 : Nat) ≠ 2 * 2 ^ 63 := by
  refine ⟨by decide, by decide, by decide⟩

theorem c6_warm_up_witness :
    ∃ e t, (Function.warm_up (fun _ => 5) 12 13).2 = some (e, t) ∧
      12 < e ∧ t = (Function.warm_up (fun _ => 5) 12 13).1.sum ∧
      e = ((Function.warm_up (fun _ => 5) 12 13).1.map (fun _ => 5)).sum :=
  (c6_warm_up (fun _ => 5) 12 13 (fun _ => by norm_num) (by norm_num)).1

/-- `BenchmarkConfig` (protocol.rs:138-146); the two times are in
nanoseconds, as produced by `Duration::as_nanos`. -/
structure BenchmarkConfig where
  measurement_time : Nat
  nresamples : Nat
  sample_size : Nat
  warm_up_time : Nat
deriving DecidableEq

/-- The compile-time default configuration (protocol.rs:148-158):
measurement 5s, 100000 resamples, 50 samples, warm-up 3s. -/
def BenchmarkConfig.default : BenchmarkConfig :=
  ⟨5000000000, 100000, 50, 3000000000⟩

/-- Outcome of one `Function::sample` run (func.rs:72-131): the clamped
sample count, the per-sample iteration count, the total iteration count sent
in `MeasurementStart`, and the number of stored samples after the resize
loops at func.rs:119-125. -/
structure SampleOutcome where
  numSamples : Nat
  numItersPerSample : Nat
  numIters : Nat
  outLen : Nat
deriving DecidableEq

/-- `Function::sample` (func.rs:72-131).  `capacity` is the value buffer's
capacity (`out_durations.capacity()`, 128 in `WorkingArea`); `wuElapsed` and
`wuIters` are the warm-up results.  `none` models the panics: the u128
division by zero when `warm_up_time` or `sample_size` is zero, the
`checked_mul` overflow `expect` at func.rs:99-101, and `ArrayVec::push` onto
a full buffer.  The u128 intermediates of func.rs:96-98 are exact because
both operands are u64 values, so they are modelled as plain `Nat`
arithmetic; the `as u64` cast of the `.max(1)` result truncates modulo
2^64.  Note that the code divides the warm-up iteration count by the
configured `warm_up_time` goal — `wuElapsed`, the measured elapsed time, is
not used — and divides the budget by the unclamped `config.sample_size`
rather than the clamped `num_samples` of func.rs:80. -/
def Function.sample (cfg : BenchmarkConfig) (capacity wuElapsed wuIters : Nat) :
    Option SampleOutcome :=
  let numSamples := max (min cfg.sample_size capacity) 1
  if cfg.warm_up_time = 0 then none
  else
    let budget := wuIters * cfg.measurement_time / cfg.warm_up_time
    if cfg.sample_size = 0 then none
    else
      let perSample := max (budget / cfg.sample_size) 1 % 2 ^ 64
      if 2 ^ 64 ≤ perSample * numSamples then none
      else if capacity < numSamples then none
      else some ⟨numSamples, perSample, perSample * numSamples, numSamples⟩

/-- The iterations-per-sample formula as the specification words it
(spec §4.4 sample-count derivation): the total budget `w_iters * m_time /
w_elapsed` — divided by the *measured* warm-up elapsed time — then divided
by the *clamped* sample count, with a floor of 1.  Written from the spec for
comparison against `Function.sample`. -/
def specItersPerSample (wuElapsed wuIters mTime sampleSize capacity : Nat) : Nat :=
  max (wuIters * mTime / wuElapsed / max (min sampleSize capacity) 1) 1

/-- C2 counterexample.  First input (warm-up goal 100, measured elapsed 200):
the code computes 100 * 1000 / 100 / 2 = 500 iterations per sample, while
the claimed formula over the measured elapsed time gives 100 * 1000 / 200 /
2 = 250.  Second input (configured sample size 200 above the capacity 128):
the code divides the budget 1000 by the unclamped 200 giving 5, while the
claimed formula divides by the clamped count 128 giving 7. -/
theorem c2_sample_counterexample :
    ((Function.sample ⟨1000, 0, 2, 100⟩ 128 200 100).map (fun o => o.numItersPerSample) =
      some 500) ∧
    specItersPerSample 200 100 1000 2 128 = 250 ∧ (500 : Nat) ≠ 250 ∧
    ((Function.sample ⟨1000, 0, 200, 1000⟩ 128 1000 1000).map (fun o => o.numItersPerSample) =
      some 5) ∧
    specItersPerSample 1000 1000 1000 200 128 = 7 ∧ (5 : Nat) ≠ 7 := by
  refine ⟨by decide, by decide, by decide, by decide, by decide, by decide⟩

/-- C2 (amended): for every configuration with a nonzero warm-up goal and a
nonzero configured sample size, and absent the checked-multiplication
overflow panic, `Function::sample` computes the estimated total iteration
budget as `w_iters * measurement_time / warm_up_time` — dividing by the
configured warm-up goal duration, not the measured warm-up elapsed time,
which it ignores — with exact 128-bit intermediates over the 64-bit
operands, and the iterations per sample as `max(1, budget /
config.sample_size)` with the unclamped configured sample size, truncated
to 64 bits; the total iteration count is the per-sample count times the
clamped sample count. -/
theorem c2_sample_formula (cfg : BenchmarkConfig) (capacity wuElapsed wuIters : Nat)
    (hw : 0 < cfg.warm_up_time) (hs : 0 < cfg.sample_size)
    (hcap : max (min cfg.sample_size capacity) 1 ≤ capacity)
    (hovf : max (wuIters * cfg.measurement_time / cfg.warm_up_time / cfg.sample_size) 1 % 2 ^ 64 *
        max (min cfg.sample_size capacity) 1 < 2 ^ 64) :
    Function.sample cfg capacity wuElapsed wuIters =
      some ⟨max (min cfg.sample_size capacity) 1,
        max (wuIters * cfg.measurement_time / cfg.warm_up_time / cfg.sample_size) 1 % 2 ^ 64,
        max (wuIters * cfg.measurement_time / cfg.warm_up_time / cfg.sample_size) 1 % 2 ^ 64 *
          max (min cfg.sample_size capacity) 1,
        max (min cfg.sample_size capacity) 1⟩ := by
  unfold Function.sample
  rw [if_neg (by omega), if_neg (by omega), if_neg (by omega), if_neg (by omega)]

theorem c2_sample_formula_witness :
    Function.sample BenchmarkConfig.default 128 3000000001 1023 =
      some ⟨max (min BenchmarkConfig.default.sample_size 128) 1,
        max (1023 * BenchmarkConfig.default.measurement_time /
          BenchmarkConfig.default.warm_up_time / BenchmarkConfig.default.sample_size) 1 % 2 ^ 64,
        max (1023 * BenchmarkConfig.default.measurement_time /
          BenchmarkConfig.default.warm_up_time / BenchmarkConfig.default.sample_size) 1 % 2 ^ 64 *
          max (min BenchmarkConfig.default.sample_size 128) 1,
        max (min BenchmarkConfig.default.sample_size 128) 1⟩ :=
  c2_sample_formula BenchmarkConfig.default 128 3000000001 1023
    (by decide) (by decide) (by decide) (by decide)

/-- C3: with a configured sample size of 0 (all other fields at their
defaults), `Function::sample` reaches the u128 division `num_iters /
config.sample_size as u128` at func.rs:98 with a zero divisor and panics:
the clamp `sample_size.min(capacity).max(1)` at func.rs:80 is applied to the
stored-sample count but not to this divisor. -/
theorem c3_sample_size_zero_panics :
    Function.sample ⟨5000000000, 100000, 0, 3000000000⟩ 128 3000000001 1023 = none := by
  decide

/-- Run mode (`Mode`, protocol.rs:31-36). -/
inductive Mode where
  | benchmark
  | test
deriving DecidableEq

/-- `Throughput` (protocol.rs:119-124). -/
inductive Throughput where
  | bytes (n : Nat)
  | elements (n : Nat)
deriving DecidableEq

/-- `RawBenchmarkId` (protocol.rs:85-90). -/
structure RawBenchmarkId where
  group_id : String
  function_id : Option String
  value_str : Option String
  throughput : Option Throughput
deriving DecidableEq

/-- Upstream (target-to-proxy) messages (`UpstreamMessage`,
protocol.rs:48-81); `End` is rendered `benchEnd`.  Durations and instants
are nanosecond counts. -/
inductive UpstreamMessage where
  | beginningBenchmarkGroup (group : String)
  | finishedBenchmarkGroup
  | beginningBenchmark (id : RawBenchmarkId)
  | skippingBenchmark (id : RawBenchmarkId)
  | warmup (warm_up_goal_duration : Nat)
  | measurementStart (warm_up_iter_count warm_up_duration num_samples num_iters : Nat)
  | measurementComplete (num_iters_per_sample : Nat) (values : List Nat)
      (benchmark_config : BenchmarkConfig)
  | benchEnd
  | getInstant
deriving DecidableEq

/-- Downstream (proxy-to-target) messages (`DownstreamMessage`,
protocol.rs:15-26); `Continue` is rendered `continueMsg`. -/
inductive DownstreamMessage where
  | greeting (mode : Mode)
  | continueMsg
  | instant (nanos : Nat)
deriving DecidableEq

/-- The downstream replies the dumb front-end sends in direct response to
one upstream message (`run_frontend`, dumbfront.rs:15-40): `GetInstant` is
answered with an `Instant`, `MeasurementComplete` is followed by exactly one
`Continue`, and every other message — including `FinishedBenchmarkGroup` —
is only logged, with no reply. -/
def dumbfrontResponse (originElapsed : Nat) : UpstreamMessage → List DownstreamMessage
  | .getInstant => [.instant originElapsed]
  | .measurementComplete _ _ _ => [.continueMsg]
  | _ => []

/-- The dumb front-end loop (dumbfront.rs:15-43) over a sequence of upstream
messages, collecting every downstream message it sends; the loop exits upon
`End`. -/
def dumbfrontRun (originElapsed : Nat) : List UpstreamMessage → List DownstreamMessage
  | [] => []
  | m :: rest =>
    dumbfrontResponse originElapsed m ++
      (if m = .benchEnd then [] else dumbfrontRun originElapsed rest)

/-- Observable actions of the target-side engine. -/
inductive EngineAction where
  | sendMsg (m : UpstreamMessage)
  | recvContinue
  | callRoutine (iters : Nat)
deriving DecidableEq

/-- `Function::bench` (func.rs:14-38): the routine is invoked once per
output slot, each time with the fixed per-sample iteration count. -/
def Function.benchTrace (itersPerSample numOutValues : Nat) : List EngineAction :=
  List.replicate numOutValues (.callRoutine itersPerSample)

/-- Action trace of `BenchmarkGroup::bench_function_inner`
(mod.rs:183-242).  The Benchmark arm announces the benchmark and runs the
measurement procedure of `analysis::common` (passed in as `benchmarkBody`);
the Test arm calls `Function::bench` with one output slot and iteration
count 1 (mod.rs:227) and sends nothing.  Both arms then fall through to the
unconditional wait for a `Continue` message at mod.rs:232-239. -/
def benchFunctionInner (mode : Mode) (id : RawBenchmarkId)
    (benchmarkBody : List EngineAction) : List EngineAction :=
  (match mode with
   | .benchmark => .sendMsg (.beginningBenchmark id) :: benchmarkBody
   | .test => Function.benchTrace 1 1) ++ [.recvContinue]

/-- Action trace of `impl Drop for BenchmarkGroup` (mod.rs:251-266): send
`FinishedBenchmarkGroup`, then block until a `Continue` arrives. -/
def benchmarkGroupDropTrace : List EngineAction :=
  [.sendMsg .finishedBenchmarkGroup, .recvContinue]

/-- C4: in Test mode the engine runs the routine exactly once with
iteration count 1 and sends no message, but its trace then ends with a
blocking wait for a `Continue` message — the wait at mod.rs:232-239 sits
outside the mode match — contradicting the claim that the engine proceeds
to the next benchmark immediately without waiting. -/
theorem c4_test_mode_waits :
    benchFunctionInner Mode.test ⟨"group", none, none, none⟩ [] =
      [EngineAction.callRoutine 1, EngineAction.recvContinue] ∧
    EngineAction.recvContinue ∈
      benchFunctionInner Mode.test ⟨"group", none, none, none⟩ [] := by
  refine ⟨rfl, ?_⟩
  rw [benchFunctionInner]
  simp [Function.benchTrace]

/-- C9: the dumb front-end sends no `Continue` in response to
`FinishedBenchmarkGroup` — only `MeasurementComplete` is acknowledged with
exactly one `Continue` — while the target-side benchmark-group drop
handler blocks waiting for precisely that `Continue` after sending
`FinishedBenchmarkGroup`. -/
theorem c9_dumbfront_no_continue_after_group :
    dumbfrontResponse 0 .finishedBenchmarkGroup = [] ∧
    DownstreamMessage.continueMsg ∉ dumbfrontResponse 0 .finishedBenchmarkGroup ∧
    dumbfrontResponse 0 (.measurementComplete 1 [] BenchmarkConfig.default) =
      [.continueMsg] ∧
    EngineAction.recvContinue ∈ benchmarkGroupDropTrace := by
  refine ⟨rfl, by simp [dumbfrontResponse], rfl, by simp [benchmarkGroupDropTrace]⟩

theorem take_append_le {α : Type} (l1 l2 : List α) (n : Nat) (h : n ≤ l1.length) :
    (l1 ++ l2).take n = l1.take n := by
  induction l1 generalizing n with
  | nil =>
    have hz : n = 0 := by simpa using h
    subst hz; rfl
  | cons a t ih =>
    cases n with
    | zero => rfl
    | succ n =>
      simp only [List.cons_append, List.take_succ_cons]
      rw [ih n (by simpa using h)]

theorem drop_append_le {α : Type} (l1 l2 : List α) (n : Nat) (h : n ≤ l1.length) :
    (l1 ++ l2).drop n = l1.drop n ++ l2 := by
  induction l1 generalizing n with
  | nil =>
    have hz : n = 0 := by simpa using h
    subst hz; rfl
  | cons a t ih =>
    cases n with
    | zero => rfl
    | succ n =>
      simp only [List.cons_append, List.drop_succ_cons]
      exact ih n (by simpa using h)

theorem take_length_append {α : Type} (d r : List α) : (d ++ r).take d.length = d := by
  rw [take_append_le d r d.length le_rfl, List.take_length]

theorem drop_all_nil {α : Type} : ∀ (l : List α) (n : Nat), l.length ≤ n → l.drop n = [] := by
  intro l
  induction l with
  | nil => intro n _; simp
  | cons a t ih =>
    intro n hn
    cases n with
    | zero => simp at hn
    | succ n => exact ih n (by simpa using hn)

theorem take_drop_split (l : List Nat) (pos scan len : Nat)
    (h1 : pos ≤ scan) (h2 : scan ≤ len) (h3 : len ≤ l.length) :
    (l.take len).drop pos = (l.take scan).drop pos ++ (l.take len).drop scan := by
  have hx : (l.take len).take scan = l.take scan := by
    rw [List.take_take, min_eq_left h2]
  have hlen2 : pos ≤ ((l.take len).take scan).length := by
    simp only [List.length_take]
    omega
  conv_lhs => rw [← List.take_append_drop scan (l.take len)]
  rw [drop_append_le _ _ pos hlen2, hx]

/-- Buffer-cursor state of `ProxyLink` (proxylink.rs:7-17): `buf` is the
fixed-capacity link buffer, `buf[bufPos..bufLen]` is yet to be decoded,
`buf[0..bufLen]` holds valid data, and `buf[bufPos..bufScan]` has already
been scanned for the frame delimiter without finding one. -/
structure LinkState where
  buf : List Nat
  bufPos : Nat
  bufLen : Nat
  bufScan : Nat
deriving DecidableEq

/-- Writes `data` into `buf` starting at position `start`, leaving the other
positions unchanged (models in-place slice writes; preserves the length
whenever `start + data.length ≤ buf.length`). -/
def writeRange (buf : List Nat) (start : Nat) (data : List Nat) : List Nat :=
  buf.take start ++ data ++ buf.drop (start + data.length)

/-- The unscanned window `buf[buf_scan..buf_len]` searched by the delimiter
scan of `ProxyLink::recv` (proxylink.rs:117). -/
def recvWindow (s : LinkState) : List Nat := (s.buf.take s.bufLen).drop s.bufScan

/-- The `iter().position(|&b| b == SLIP_FRAME_END)` scan. -/
def findFrameEnd : List Nat → Option Nat
  | [] => none
  | b :: rest =>
    if b = SLIP_FRAME_END then some 0 else (findFrameEnd rest).map (fun i => i + 1)

/-- Result of one iteration of the `ProxyLink::recv` loop. -/
inductive StepResult where
  | msg (payload : List Nat) (s : LinkState)
  | loopAgain (s : LinkState)
  | escErr
  | tooLarge
  | assertFail
deriving DecidableEq

/-- One iteration of the `ProxyLink::recv` loop (proxylink.rs:115-181).
When the scan finds the delimiter at relative position `endIdx`, both
cursors advance past it; a nonempty frame (`endIdx > 0`) is un-escaped in
place (its decoded bytes written back at `buf_pos`, `escErr` for an invalid
escape) and returned, an empty one makes the loop continue.  With no
delimiter: a full buffer (at most one free byte) is fatal when `buf_pos` is
0 and otherwise compacted by moving `buf[buf_pos..buf_len]` to the start;
otherwise `nextRead` is the chunk the blocking `io.read` delivers into
`buf[buf_len..]`, and `assertFail` models the violated `assert!`s on its
length (a zero-length read, or more bytes than the free space). -/
def recvStep (s : LinkState) (nextRead : List Nat) : StepResult :=
  match findFrameEnd (recvWindow s) with
  | some endIdx =>
    if 0 < endIdx then
      match slipUnescape ((s.buf.take (s.bufScan + endIdx)).drop s.bufPos) with
      | some p =>
        .msg p
          { s with
              buf := writeRange s.buf s.bufPos p,
              bufPos := s.bufScan + endIdx + 1,
              bufScan := s.bufScan + endIdx + 1 }
      | none => .escErr
    else .loopAgain { s with bufPos := s.bufScan + endIdx + 1, bufScan := s.bufScan + endIdx + 1 }
  | none =>
    if s.buf.length - s.bufLen ≤ 1 then
      if s.bufPos = 0 then .tooLarge
      else
        .loopAgain
          { buf := writeRange s.buf 0 ((s.buf.take s.bufLen).drop s.bufPos),
            bufPos := 0, bufLen := s.bufLen - s.bufPos, bufScan := s.bufLen - s.bufPos }
    else if nextRead.length = 0 then .assertFail
    else if s.buf.length - s.bufLen < nextRead.length then .assertFail
    else
      .loopAgain
        { s with
            buf := writeRange s.buf s.bufLen nextRead,
            bufScan := s.bufLen,
            bufLen := s.bufLen + nextRead.length }

/-- The `ProxyLink` buffer-cursor invariant: `0 ≤ buf_pos ≤ buf_scan ≤
buf_len ≤ buf.len()` (the lower bound is inherent to `Nat`) together with
the documented meaning of `buf_scan` (proxylink.rs:15-16): the scanned
window `buf[buf_pos..buf_scan]` contains no end-of-frame byte. -/
def LinkInv (s : LinkState) : Prop :=
  s.bufPos ≤ s.bufScan ∧ s.bufScan ≤ s.bufLen ∧ s.bufLen ≤ s.buf.length ∧
    ∀ b ∈ (s.buf.take s.bufScan).drop s.bufPos, b ≠ SLIP_FRAME_END

instance LinkInv.decidable (s : LinkState) : Decidable (LinkInv s) := by
  unfold LinkInv
  infer_instance

/-- The cursor state `ProxyLink::new` establishes once the handshake is done
(proxylink.rs:99-105): all three cursors zero. -/
def ProxyLink.newState (buf : List Nat) : LinkState :=
  { buf := buf, bufPos := 0, bufLen := 0, bufScan := 0 }

/-- The state after `ProxyLink::send` (proxylink.rs:186-258): the three
cursors are zeroed first (destroying any buffered messages), then the
encoded SLIP frame is written into the buffer. -/
def ProxyLink.sendState (s : LinkState) (payload : List Nat) : LinkState :=
  { buf := writeRange s.buf 0 (sendFrame payload), bufPos := 0, bufLen := 0, bufScan := 0 }

theorem writeRange_length (buf data : List Nat) (start : Nat)
    (h : start + data.length ≤ buf.length) :
    (writeRange buf start data).length = buf.length := by
  unfold writeRange
  simp only [List.length_append, List.length_take, List.length_drop]
  omega

theorem writeRange_take (buf data : List Nat) (start k : Nat) (hk : k ≤ start)
    (hs : start ≤ buf.length) :
    (writeRange buf start data).take k = buf.take k := by
  unfold writeRange
  rw [List.append_assoc, take_append_le _ _ k (by simp only [List.length_take]; omega),
    List.take_take, min_eq_left hk]

theorem writeRange_zero (buf data : List Nat) :
    writeRange buf 0 data = data ++ buf.drop data.length := by
  unfold writeRange
  simp

theorem findFrameEnd_none :
    ∀ (l : List Nat), findFrameEnd l = none → ∀ b ∈ l, b ≠ SLIP_FRAME_END := by
  intro l
  induction l with
  | nil => intro _ b hb; simp at hb
  | cons a t ih =>
    intro h b hb
    by_cases ha : a = SLIP_FRAME_END
    · rw [findFrameEnd, if_pos ha] at h
      exact absurd h (by simp)
    · rw [findFrameEnd, if_neg ha] at h
      rcases List.mem_cons.mp hb with rfl | hb2
      · exact ha
      · exact ih (by simpa using h) b hb2

theorem findFrameEnd_some_lt :
    ∀ (l : List Nat) (i : Nat), findFrameEnd l = some i → i < l.length := by
  intro l
  induction l with
  | nil => intro i h; simp [findFrameEnd] at h
  | cons a t ih =>
    intro i h
    by_cases ha : a = SLIP_FRAME_END
    · rw [findFrameEnd, if_pos ha] at h
      obtain rfl : i = 0 := by simpa using h.symm
      simp
    · rw [findFrameEnd, if_neg ha] at h
      simp only [Option.map_eq_some'] at h
      obtain ⟨j, hj, rfl⟩ := h
      have := ih j hj
      simp only [List.length_cons]
      omega

theorem slipUnescape_nil : slipUnescape [] = some [] := rfl

theorem slipUnescape_length_aux :
    ∀ (n : Nat) (w p : List Nat), w.length ≤ n → slipUnescape w = some p →
      p.length ≤ w.length := by
  intro n
  induction n with
  | zero =>
    intro w p hw h
    have hnil : w = [] := List.length_eq_zero.mp (Nat.le_zero.mp hw)
    subst hnil
    rw [slipUnescape_nil] at h
    obtain rfl : ([] : List Nat) = p := Option.some.inj h
    simp
  | succ n ih =>
    intro w p hw h
    match w with
    | [] =>
      rw [slipUnescape_nil] at h
      obtain rfl : ([] : List Nat) = p := Option.some.inj h
      simp
    | b1 :: rest =>
      by_cases hb : b1 = SLIP_FRAME_ESC
      · subst hb
        match rest with
        | [] =>
          rw [slipUnescape_esc_nil] at h
          obtain rfl := Option.some.inj h
          simp
        | b2 :: rest2 =>
          rw [slipUnescape_esc_cons] at h
          have hlen : rest2.length ≤ n := by
            simp only [List.length_cons] at hw
            omega
          by_cases hy1 : b2 = SLIP_FRAME_ESC_END
          · rw [if_pos hy1] at h
            simp only [Option.map_eq_some'] at h
            obtain ⟨q, hq, rfl⟩ := h
            have := ih rest2 q hlen hq
            simp only [List.length_cons]
            omega
          · by_cases hy2 : b2 = SLIP_FRAME_ESC_ESC
            · rw [if_neg hy1, if_pos hy2] at h
              simp only [Option.map_eq_some'] at h
              obtain ⟨q, hq, rfl⟩ := h
              have := ih rest2 q hlen hq
              simp only [List.length_cons]
              omega
            · rw [if_neg hy1, if_neg hy2] at h
              exact absurd h (by simp)
      · rw [slipUnescape_cons_ne b1 rest hb] at h
        simp only [Option.map_eq_some'] at h
        obtain ⟨q, hq, rfl⟩ := h
        have := ih rest q (by simp only [List.length_cons] at hw; omega) hq
        simp only [List.length_cons]
        omega

theorem slipUnescape_length (w p : List Nat) (h : slipUnescape w = some p) :
    p.length ≤ w.length :=
  slipUnescape_length_aux w.length w p le_rfl h

theorem recvStep_loopAgain_inv (s : LinkState) (nextRead : List Nat) (s2 : LinkState)
    (hInv : LinkInv s) (hstep : recvStep s nextRead = StepResult.loopAgain s2) : LinkInv s2 := by
  obtain ⟨h1, h2, h3, h4⟩ := hInv
  have hwinlen : (recvWindow s).length = s.bufLen - s.bufScan := by
    unfold recvWindow
    simp only [List.length_drop, List.length_take]
    omega
  unfold recvStep at hstep
  split at hstep
  · rename_i endIdx heq
    have hlt : endIdx < (recvWindow s).length := findFrameEnd_some_lt _ _ heq
    split at hstep
    · split at hstep
      · exact absurd hstep (by simp)
      · exact absurd hstep (by simp)
    · cases hstep
      refine ⟨le_rfl, ?_, ?_, ?_⟩
      · show s.bufScan + endIdx + 1 ≤ s.bufLen
        omega
      · show s.bufLen ≤ s.buf.length
        exact h3
      · intro b hb
        exfalso
        have hshort : (s.buf.take (s.bufScan + endIdx + 1)).length ≤ s.bufScan + endIdx + 1 := by
          simp only [List.length_take]
          omega
        rw [drop_all_nil _ _ hshort] at hb
        exact absurd hb (List.not_mem_nil b)
  · rename_i heq
    have hnoend := findFrameEnd_none _ heq
    split at hstep
    · rename_i hfull
      split at hstep
      · exact absurd hstep (by simp)
      · rename_i hp
        cases hstep
        have hdata : ((s.buf.take s.bufLen).drop s.bufPos).length = s.bufLen - s.bufPos := by
          simp only [List.length_drop, List.length_take]
          omega
        refine ⟨Nat.zero_le _, le_rfl, ?_, ?_⟩
        · show s.bufLen - s.bufPos ≤
            (writeRange s.buf 0 ((s.buf.take s.bufLen).drop s.bufPos)).length
          rw [writeRange_length _ _ _ (by simp only [List.length_drop, List.length_take]; omega)]
          omega
        · intro b hb
          rw [List.drop_zero, writeRange_zero, ← hdata, take_length_append] at hb
          rw [take_drop_split s.buf s.bufPos s.bufScan s.bufLen h1 h2 h3] at hb
          rcases List.mem_append.mp hb with hb2 | hb2
          · exact h4 b hb2
          · exact hnoend b hb2
    · rename_i hfull
      split at hstep
      · exact absurd hstep (by simp)
      · split at hstep
        · exact absurd hstep (by simp)
        · rename_i hz hov
          cases hstep
          refine ⟨?_, ?_, ?_, ?_⟩
          · show s.bufPos ≤ s.bufLen
            omega
          · show s.bufLen ≤ s.bufLen + nextRead.length
            omega
          · show s.bufLen + nextRead.length ≤ (writeRange s.buf s.bufLen nextRead).length
            rw [writeRange_length _ _ _ (by omega)]
            omega
          · intro b hb
            have hb2 : b ∈ ((writeRange s.buf s.bufLen nextRead).take s.bufLen).drop s.bufPos :=
              hb
            rw [writeRange_take s.buf nextRead s.bufLen s.bufLen le_rfl (by omega)] at hb2
            rw [take_drop_split s.buf s.bufPos s.bufScan s.bufLen h1 h2 h3] at hb2
            rcases List.mem_append.mp hb2 with hb3 | hb3
            · exact h4 b hb3
            · exact hnoend b hb3

theorem recvStep_msg_inv (s : LinkState) (nextRead : List Nat) (p : List Nat) (s2 : LinkState)
    (hInv : LinkInv s) (hstep : recvStep s nextRead = StepResult.msg p s2) : LinkInv s2 := by
  obtain ⟨h1, h2, h3, h4⟩ := hInv
  have hwinlen : (recvWindow s).length = s.bufLen - s.bufScan := by
    unfold recvWindow
    simp only [List.length_drop, List.length_take]
    omega
  unfold recvStep at hstep
  split at hstep
  · rename_i endIdx heq
    have hlt : endIdx < (recvWindow s).length := findFrameEnd_some_lt _ _ heq
    split at hstep
    · rename_i hpos
      split at hstep
      · rename_i q hun
        cases hstep
        have hplen := slipUnescape_length _ _ hun
        have hframelen : ((s.buf.take (s.bufScan + endIdx)).drop s.bufPos).length =
            s.bufScan + endIdx - s.bufPos := by
          simp only [List.length_drop, List.length_take]
          omega
        rw [hframelen] at hplen
        refine ⟨le_rfl, ?_, ?_, ?_⟩
        · show s.bufScan + endIdx + 1 ≤ s.bufLen
          omega
        · show s.bufLen ≤ (writeRange s.buf s.bufPos p).length
          rw [writeRange_length _ _ _ (by omega)]
          exact h3
        · intro b hb
          exfalso
          have hshort : ((writeRange s.buf s.bufPos p).take (s.bufScan + endIdx + 1)).length ≤
              s.bufScan + endIdx + 1 := by
            simp only [List.length_take]
            omega
          rw [drop_all_nil _ _ hshort] at hb
          exact absurd hb (List.not_mem_nil b)
      · exact absurd hstep (by simp)
    · exact absurd hstep (by simp)
  · split at hstep
    · split at hstep
      · exact absurd hstep (by simp)
      · exact absurd hstep (by simp)
    · split at hstep
      · exact absurd hstep (by simp)
      · split at hstep
        · exact absurd hstep (by simp)
        · exact absurd hstep (by simp)

/-- C8: when the buffer is full (at most one free byte — the code's
`buf.len() - buf_len <= 1` test at proxylink.rs:159) and the delimiter scan
found nothing, the step with `buf_pos = 0` raises the fatal
"too large received packet" panic (proxylink.rs:162), and the step with
`buf_pos > 0` compacts the unread portion `buf[buf_pos..buf_len]` to the
buffer's start — the compacted prefix is exactly the old unread bytes, with
the cursors adjusted — and the loop continues rather than truncating or
returning. -/
theorem c8_full_buffer (s : LinkState) (nextRead : List Nat)
    (hInv : LinkInv s)
    (hnone : findFrameEnd (recvWindow s) = none)
    (hfull : s.buf.length - s.bufLen ≤ 1) :
    (s.bufPos = 0 → recvStep s nextRead = StepResult.tooLarge) ∧
    (0 < s.bufPos →
      recvStep s nextRead = StepResult.loopAgain
        { buf := writeRange s.buf 0 ((s.buf.take s.bufLen).drop s.bufPos),
          bufPos := 0, bufLen := s.bufLen - s.bufPos, bufScan := s.bufLen - s.bufPos } ∧
      (writeRange s.buf 0 ((s.buf.take s.bufLen).drop s.bufPos)).take (s.bufLen - s.bufPos) =
        (s.buf.take s.bufLen).drop s.bufPos) := by
  obtain ⟨h1, h2, h3, h4⟩ := hInv
  constructor
  · intro hp
    unfold recvStep
    simp only [hnone, if_pos hfull, if_pos hp]
  · intro hp
    constructor
    · unfold recvStep
      simp only [hnone, if_pos hfull, if_neg (show ¬s.bufPos = 0 by omega)]
    · have hdata : ((s.buf.take s.bufLen).drop s.bufPos).length = s.bufLen - s.bufPos := by
        simp only [List.length_drop, List.length_take]
        omega
      rw [writeRange_zero, ← hdata, take_length_append]

theorem c8_full_buffer_witness :
    recvStep ⟨[0xc0, 7, 8, 9], 1, 4, 1⟩ [] = StepResult.loopAgain ⟨[7, 8, 9, 9], 0, 3, 3⟩ :=
  ((c8_full_buffer ⟨[0xc0, 7, 8, 9], 1, 4, 1⟩ [] (by decide) (by decide) (by decide)).2
    (by decide)).1

/-- C10: `ProxyLink::new` establishes the buffer-cursor invariant (the
cursor chain `0 ≤ buf_pos ≤ buf_scan ≤ buf_len ≤ buf.len()` plus the
absence of the end-of-frame byte from `buf[buf_pos..buf_scan]`), every
non-aborting iteration of the `recv` loop — whether it returns a message or
continues — preserves it, and `send` re-establishes it by zeroing all three
cursors before encoding into the buffer. -/
theorem c10_link_invariant :
    (∀ buf, LinkInv (ProxyLink.newState buf)) ∧
    (∀ (s : LinkState) (nextRead : List Nat) (s2 : LinkState),
      LinkInv s → recvStep s nextRead = StepResult.loopAgain s2 → LinkInv s2) ∧
    (∀ (s : LinkState) (nextRead p : List Nat) (s2 : LinkState),
      LinkInv s → recvStep s nextRead = StepResult.msg p s2 → LinkInv s2) ∧
    (∀ (s : LinkState) (payload : List Nat), LinkInv (ProxyLink.sendState s payload)) := by
  refine ⟨?_, ?_, ?_, ?_⟩
  · intro buf
    refine ⟨le_rfl, le_rfl, Nat.zero_le _, ?_⟩
    intro b hb
    simp [ProxyLink.newState] at hb
  · intro s nextRead s2 hInv hstep
    exact recvStep_loopAgain_inv s nextRead s2 hInv hstep
  · intro s nextRead p s2 hInv hstep
    exact recvStep_msg_inv s nextRead p s2 hInv hstep
  · intro s payload
    refine ⟨le_rfl, le_rfl, Nat.zero_le _, ?_⟩
    intro b hb
    simp [ProxyLink.sendState] at hb

theorem c10_link_invariant_witness :
    LinkInv { buf := [1, 2, 0, 0], bufPos := 0, bufLen := 2, bufScan := 0 } :=
  c10_link_invariant.2.1 (ProxyLink.newState [0, 0, 0, 0]) [1, 2]
    { buf := [1, 2, 0, 0], bufPos := 0, bufLen := 2, bufScan := 0 } (by decide) (by decide)

end Farcri
